import Mathlib

/-!
Shallow embedding of the `prom-write` core (Prometheus remote-write client).

Sources embedded:
  * `src/lib/src/lib.rs`  — the library: data model, aggregation
    (`samples_to_timeseries`), canonicalization (`WriteRequest::sort` /
    `sorted`, `TimeSeries::sort_labels_and_samples`), protobuf encoding
    (`encode_proto3` via prost), HTTP request assembly
    (`build_http_request`).
  * `src/bin/src/main.rs` — the CLI: `Args::build_write_request`
    (single-metric branch).

Modelling conventions:
  * Rust `String` is Lean `String`.  Rust's `str::cmp` compares UTF-8
    bytes lexicographically; for valid UTF-8 this coincides with
    lexicographic comparison of Unicode code points, which is exactly
    Lean's `String` order, so `· ≤ ·` on `String` faithfully models the
    source's byte-wise comparator.
  * Rust `f64` sample values are carried opaquely by the pipeline (never
    inspected, only copied and serialized), so a value is modelled by its
    IEEE-754 binary64 bit pattern, a `Nat` below `2^64`.
  * Rust `i64` timestamps are modelled as `Int`.
  * Rust's stable `sort_by` is modelled by `List.insertionSort` (also a
    stable sort, hence extensionally the same function on every total
    preorder comparator).
  * `HashMap`s are modelled as insertion-ordered association lists. The
    source's `HashMap` iteration order is arbitrary; downstream code
    either sorts the result or is order-independent in the properties
    proved here.
-/

namespace PromWrite

/-! ### Byte-wise string order

Rust's `str::cmp` is lexicographic on UTF-8 bytes; for valid UTF-8 this
coincides with lexicographic order on the code-point sequence, which is
what `charsLt` computes. -/

/-- Strict lexicographic order on code-point sequences (the order Rust's
`str::cmp` induces on valid UTF-8). -/
def charsLt : List Char → List Char → Bool
  | _, [] => false
  | [], _ :: _ => true
  | a :: as, b :: bs => decide (a < b) || (a == b && charsLt as bs)

/-- `a < b` for strings, as Rust's `str::cmp` orders them. -/
def strLt (a b : String) : Bool :=
  charsLt a.data b.data

/-- `a <= b` for strings, as Rust's `str::cmp` orders them. -/
def strLe (a b : String) : Bool :=
  ! strLt b a

/-- `LABEL_NAME` from `src/lib/src/lib.rs`: the reserved metric-name label key. -/
def LABEL_NAME : String := "__name__"

/-- `CONTENT_TYPE` from `src/lib/src/lib.rs`. -/
def CONTENT_TYPE : String := "application/x-protobuf"

/-- `HEADER_NAME_REMOTE_WRITE_VERSION` from `src/lib/src/lib.rs`. -/
def HEADER_NAME_REMOTE_WRITE_VERSION : String := "X-Prometheus-Remote-Write-Version"

/-- `REMOTE_WRITE_VERSION_01` from `src/lib/src/lib.rs`. -/
def REMOTE_WRITE_VERSION_01 : String := "0.1.0"

/-- `Label` (lib.rs): a name/value pair of strings. -/
structure Label where
  name : String
  value : String
deriving DecidableEq, Repr

/-- `Sample` (lib.rs): `value: f64` is modelled by its IEEE-754 binary64
bit pattern; `timestamp: i64` in milliseconds. -/
structure Sample where
  value : Nat
  timestamp : Int
deriving DecidableEq, Repr

/-- `TimeSeries` (lib.rs). -/
structure TimeSeries where
  labels : List Label
  samples : List Sample
deriving DecidableEq, Repr

/-- `WriteRequest` (lib.rs). -/
structure WriteRequest where
  timeseries : List TimeSeries
deriving DecidableEq, Repr

/-- `prometheus_parse::Value` (external parser crate, at its boundary):
the typed value attached to one parsed exposition line.  The histogram /
summary payloads are never read by the embedded code, so their contents
are modelled as bare bit-pattern pair lists. -/
inductive PValue where
  | counter (v : Nat)
  | gauge (v : Nat)
  | histogram (counts : List (Nat × Nat))
  | summary (counts : List (Nat × Nat))
  | untyped (v : Nat)
deriving DecidableEq, Repr

/-- `prometheus_parse::Sample` (external parser crate, at its boundary):
one raw observation. `labels` models the crate's label `HashMap` as a
list in iteration order (keys unique in the real map); `timestampMillis`
models `sample.timestamp.timestamp_millis()`. -/
structure PSample where
  metric : String
  value : PValue
  labels : List (String × String)
  timestampMillis : Int
deriving DecidableEq, Repr

/-- The comparator of lib.rs line 79 (`a.0.cmp(b.0)` on `(key, value)`
pairs), as the non-strict relation a stable sort is taken over. -/
abbrev pairLe (a b : String × String) : Prop :=
  strLe a.1 b.1 = true

/-- lib.rs lines 71–79: the label list of one observation —
the parsed labels, with `(LABEL_NAME, metric)` pushed at the end, sorted
by key with a stable sort (`labels.sort_by(|a, b| a.0.cmp(b.0))`). -/
def sampleLabels (s : PSample) : List (String × String) :=
  (s.labels ++ [(LABEL_NAME, s.metric)]).insertionSort pairLe

/-- The `Label` built from a parsed `(key, value)` pair
(`.map(|(k, v)| Label { name: ..., value: ... })`, lib.rs 92–95 and
main.rs 400–403). -/
def mkLabel (kv : String × String) : Label :=
  { name := kv.1, value := kv.2 }

/-- lib.rs lines 81–87: the identity key — metric name, `"_$$_"`, then
each sorted label appended as `k=v` with no separator between pairs. -/
def mkIdent (metric : String) (labels : List (String × String)) : String :=
  labels.foldl (fun acc kv => acc ++ kv.1 ++ "=" ++ kv.2) (metric ++ "_$$_")

/-- lib.rs lines 104–114: project a parsed value onto the plain `f64`
payload, rejecting histogram and summary with their error strings. -/
def sampleValue : PValue → Except String Nat
  | .counter v => .ok v
  | .gauge v => .ok v
  | .histogram _ => .error "histogram not supported yet"
  | .summary _ => .error "summary not supported yet"
  | .untyped v => .ok v

/-- One iteration of the loop in `samples_to_timeseries` (lib.rs 70–120):
find-or-create the series for the sample's identity key
(`all_series.entry(ident).or_insert_with(...)`), then append the
`(value, timestamp)` sample to it (or fail on an unsupported value kind).
The `HashMap<String, TimeSeries>` is modelled as an insertion-ordered
association list with unique keys. -/
def stepSample (acc : List (String × TimeSeries)) (s : PSample) :
    Except String (List (String × TimeSeries)) :=
  let labels := sampleLabels s
  let ident := mkIdent s.metric labels
  let acc' :=
    if acc.any (fun e => e.1 = ident) then acc
    else acc ++ [(ident, { labels := labels.map mkLabel, samples := [] })]
  match sampleValue s.value with
  | .error e => .error e
  | .ok v => .ok (acc'.map (fun e =>
      if e.1 = ident then
        (e.1, { e.2 with samples := e.2.samples ++ [{ value := v, timestamp := s.timestampMillis }] })
      else e))

/-- The `for sample in &samples` loop of `samples_to_timeseries`
(lib.rs 70–120), with the `?` early return. -/
def runSamples (acc : List (String × TimeSeries)) :
    List PSample → Except String (List (String × TimeSeries))
  | [] => .ok acc
  | s :: rest =>
    match stepSample acc s with
    | .error e => .error e
    | .ok acc' => runSamples acc' rest

/-- `samples_to_timeseries` (lib.rs 65–123): group parsed samples into
time series keyed by identity, then collect the map's values. -/
def samples_to_timeseries (samples : List PSample) : Except String (List TimeSeries) :=
  match runSamples [] samples with
  | .error e => .error e
  | .ok m => .ok (m.map Prod.snd)

/-- The comparator of lib.rs line 183 (`a.name.cmp(&b.name)`), as the
non-strict relation a stable sort is taken over. -/
abbrev labelLe (a b : Label) : Prop :=
  strLe a.name b.name = true

/-- The comparator of lib.rs line 184 (`a.timestamp.cmp(&b.timestamp)`). -/
abbrev sampleLe (a b : Sample) : Prop :=
  a.timestamp ≤ b.timestamp

/-- `TimeSeries::sort_labels_and_samples` (lib.rs 182–186): sort labels
by name and samples by timestamp (stable sorts). -/
def TimeSeries.sort_labels_and_samples (ts : TimeSeries) : TimeSeries :=
  { labels := ts.labels.insertionSort labelLe,
    samples := ts.samples.insertionSort sampleLe }

/-- `WriteRequest::sort` / `WriteRequest::sorted` (lib.rs 35–44), as the
functional `sorted`: sort each series' labels and samples in place.  Note
that the series list itself is not reordered here. -/
def WriteRequest.sorted (r : WriteRequest) : WriteRequest :=
  { timeseries := r.timeseries.map TimeSeries.sort_labels_and_samples }

/-- lib.rs 131–133: the sort key used for the series list — the value of
the first label named `__name__`.  The source unwraps (`.unwrap()`); in
the `from_text_format` flow the label always exists, so the `none` branch
(modelled as `""`) is unreachable there. -/
def seriesName (ts : TimeSeries) : String :=
  match ts.labels.find? (fun l => l.name == LABEL_NAME) with
  | some l => l.value
  | none => ""

/-- The comparator of lib.rs lines 130–134
(`name_a.value.cmp(&name_b.value)`), as the non-strict relation a stable
sort is taken over. -/
abbrev seriesLe (a b : TimeSeries) : Prop :=
  strLe (seriesName a) (seriesName b) = true

/-- `WriteRequest::from_text_format` (lib.rs 62–139) downstream of the
external text parser: group the parsed samples
(`samples_to_timeseries`), sort the series list by metric name
(lib.rs 130–134), then canonicalize with `sorted` (lib.rs 138).  The
external `prometheus_parse::Scrape::parse` step is at the crate
boundary, so the pipeline is embedded as a function of its output. -/
def from_text_format_samples (parsedSamples : List PSample) : Except String WriteRequest :=
  match samples_to_timeseries parsedSamples with
  | .error e => .error e
  | .ok series =>
    .ok (WriteRequest.sorted { timeseries := series.insertionSort seriesLe })

/-! ## Wire encoding (prost, at its boundary)

`encode_proto3` (lib.rs 49–51) serializes with `prost` using the
annotated schema: `WriteRequest.timeseries` is repeated message field 1;
`TimeSeries.labels` / `TimeSeries.samples` are repeated message fields
1 / 2; `Label.name` / `Label.value` are string fields 1 / 2;
`Sample.value` is double field 1, `Sample.timestamp` is int64 field 2.
prost encodes length-delimited fields with key byte `(field << 3) | 2`,
varints with key `(field << 3) | 0`, doubles (fixed 64-bit) with key
`(field << 3) | 1`, and omits scalar fields holding their default value
(an empty string, `0.0` for doubles — bit patterns of both `+0.0` and
`-0.0` — and `0` for int64). -/

/-- LEB128 varint encoding with explicit recursion fuel (one byte per
7-bit group). -/
def varintAux : Nat → Nat → List Nat
  | 0, n => [n]
  | fuel + 1, n => if n < 128 then [n] else (n % 128 + 128) :: varintAux fuel (n / 128)

/-- LEB128 base-128 varint encoding of an unsigned 64-bit quantity: ten
7-bit groups of fuel cover every `n < 2 ^ 70`, so all 64-bit inputs. -/
def varint (n : Nat) : List Nat :=
  varintAux 10 n

/-- Little-endian bytes of a 64-bit quantity (a prost `fixed64` body). -/
def le64 (n : Nat) : List Nat :=
  [n % 256, n / 256 % 256, n / 256 ^ 2 % 256, n / 256 ^ 3 % 256,
   n / 256 ^ 4 % 256, n / 256 ^ 5 % 256, n / 256 ^ 6 % 256, n / 256 ^ 7 % 256]

/-- UTF-8 encoding of one character. -/
def utf8Char (c : Char) : List Nat :=
  let n := c.toNat
  if n < 0x80 then [n]
  else if n < 0x800 then [0xC0 + n / 64, 0x80 + n % 64]
  else if n < 0x10000 then [0xE0 + n / 4096, 0x80 + n / 64 % 64, 0x80 + n % 64]
  else [0xF0 + n / 262144, 0x80 + n / 4096 % 64, 0x80 + n / 64 % 64, 0x80 + n % 64]

/-- UTF-8 bytes of a string (the bytes a Rust `String` holds). -/
def utf8Bytes (s : String) : List Nat :=
  (s.data.map utf8Char).flatten

/-- The unsigned 64-bit two's-complement image of an `i64`. -/
def uint64OfInt (t : Int) : Nat :=
  (t % (2 ^ 64 : Nat)).toNat

/-- A length-delimited protobuf field: key byte, length varint, payload. -/
def lenDelim (key : Nat) (payload : List Nat) : List Nat :=
  key :: varint payload.length ++ payload

/-- prost encoding of `Label`: string fields 1 (name) and 2 (value),
each omitted when empty. -/
def encodeLabel (l : Label) : List Nat :=
  (if l.name = "" then [] else lenDelim 0x0A (utf8Bytes l.name)) ++
  (if l.value = "" then [] else lenDelim 0x12 (utf8Bytes l.value))

/-- prost encoding of `Sample`: double field 1 (omitted when the value
compares equal to `0.0`, i.e. the bit pattern of `+0.0` or `-0.0`), then
int64 field 2 as a varint of the two's-complement image (omitted when
zero). -/
def encodeSample (s : Sample) : List Nat :=
  (if s.value = 0 ∨ s.value = 2 ^ 63 then [] else 0x09 :: le64 s.value) ++
  (if s.timestamp = 0 then [] else 0x10 :: varint (uint64OfInt s.timestamp))

/-- prost encoding of `TimeSeries`: each label as message field 1, each
sample as message field 2, in list order. -/
def encodeTimeSeries (ts : TimeSeries) : List Nat :=
  (ts.labels.map (fun l => lenDelim 0x0A (encodeLabel l))).flatten ++
  (ts.samples.map (fun s => lenDelim 0x12 (encodeSample s))).flatten

/-- prost encoding of `WriteRequest`: each series as message field 1. -/
def encodeWriteRequest (r : WriteRequest) : List Nat :=
  (r.timeseries.map (fun ts => lenDelim 0x0A (encodeTimeSeries ts))).flatten

/-- `WriteRequest::encode_proto3` (lib.rs 49–51): canonicalize with
`sorted`, then protobuf-encode. -/
def WriteRequest.encode_proto3 (r : WriteRequest) : List Nat :=
  encodeWriteRequest r.sorted

/-- `WriteRequest::encode_compressed` (lib.rs 55–57): snappy-compress the
protobuf bytes.  The snappy codec lives in the external `snap` crate, so
it enters the model as an explicit function parameter. -/
def WriteRequest.encode_compressed (compress : List Nat → List Nat)
    (r : WriteRequest) : List Nat :=
  compress r.encode_proto3

/-- The request descriptor produced by `build_http_request`
(`http::Request<Vec<u8>>` at the `http` crate boundary): method, URI,
header list in insertion order, body bytes. -/
structure HttpRequest where
  method : String
  uri : String
  headers : List (String × String)
  body : List Nat
deriving DecidableEq, Repr

/-- `WriteRequest::build_http_request` (lib.rs 143–158): POST to the
endpoint with the four fixed headers and the compressed payload as body.
Header names are the `http` crate's canonical lowercase forms.  The
external builder's header-value validation (which can reject malformed
user-agent strings) is outside the model. -/
def WriteRequest.build_http_request (compress : List Nat → List Nat)
    (r : WriteRequest) (endpoint : String) (user_agent : String) : HttpRequest :=
  { method := "POST",
    uri := endpoint,
    headers := [("content-type", CONTENT_TYPE),
                (HEADER_NAME_REMOTE_WRITE_VERSION, REMOTE_WRITE_VERSION_01),
                ("content-encoding", "snappy"),
                ("user-agent", user_agent)],
    body := WriteRequest.encode_compressed compress r }

/-! ## CLI (`src/bin/src/main.rs`) -/

/-- `Args::build_write_request` (main.rs 390–426), single-metric branch:
turn the caller's labels into `Label`s (the CLI label `HashMap` modelled
as a list in iteration order), push the `__name__` label carrying the
metric name, and build one series with one sample at the current time
(`now`, a parameter: the system clock is ambient). -/
def build_write_request_metric (name : String) (labels : List (String × String))
    (value : Nat) (now : Int) : WriteRequest :=
  { timeseries := [
      { labels := labels.map mkLabel ++ [{ name := LABEL_NAME, value := name }],
        samples := [{ value := value, timestamp := now }] }] }

/-- Floor of the base-2 logarithm, with explicit recursion fuel (64
halvings cover every 64-bit input). -/
def log2Aux : Nat → Nat → Nat
  | 0, _ => 0
  | fuel + 1, n => if n ≥ 2 then log2Aux fuel (n / 2) + 1 else 0

/-- IEEE-754 binary64 bit pattern of a natural number; exact for
`n < 2 ^ 53` (all concrete sample values used below), matching what the
external text parser produces for an integer literal. -/
def doubleBitsOfNat (n : Nat) : Nat :=
  if n = 0 then 0
  else
    let e := log2Aux 64 n
    (1023 + e) * 2 ^ 52 + (n * 2 ^ (52 - e) - 2 ^ 52)

/-- Recognizer for the histogram value kind. -/
def PValue.isHistogram : PValue → Bool
  | .histogram _ => true
  | .counter _ => false
  | .gauge _ => false
  | .summary _ => false
  | .untyped _ => false

/-- Recognizer for the summary value kind. -/
def PValue.isSummary : PValue → Bool
  | .summary _ => true
  | .counter _ => false
  | .gauge _ => false
  | .histogram _ => false
  | .untyped _ => false

/-! ### Concrete inputs used to exercise the pipeline

`c7Samples` is the parse of the spec's example scenario (§8): four data
lines with no type directives, so every value is untyped; the label maps
hold the braced label pairs; timestamps are the trailing millisecond
integers. -/

def c7Samples : List PSample :=
  [{ metric := "mygauge", value := .untyped (doubleBitsOfNat 100),
     labels := [], timestampMillis := 100 },
   { metric := "http_requests_total", value := .untyped (doubleBitsOfNat 1027),
     labels := [("method", "post"), ("code", "200")], timestampMillis := 1395066363000 },
   { metric := "alpha", value := .untyped (doubleBitsOfNat 10),
     labels := [], timestampMillis := 1000 },
   { metric := "http_requests_total", value := .untyped (doubleBitsOfNat 50),
     labels := [("method", "post"), ("code", "200")], timestampMillis := 1000 }]

/-- The request the spec's example scenario expects. -/
def c7Expected : WriteRequest :=
  { timeseries := [
      { labels := [{ name := "__name__", value := "alpha" }],
        samples := [{ value := doubleBitsOfNat 10, timestamp := 1000 }] },
      { labels := [{ name := "__name__", value := "http_requests_total" },
                   { name := "code", value := "200" },
                   { name := "method", value := "post" }],
        samples := [{ value := doubleBitsOfNat 50, timestamp := 1000 },
                    { value := doubleBitsOfNat 1027, timestamp := 1395066363000 }] },
      { labels := [{ name := "__name__", value := "mygauge" }],
        samples := [{ value := doubleBitsOfNat 100, timestamp := 100 }] }] }

/-- An observation of metric `m` with label set `{a: "bc=d"}` (parse of
the line `m{a="bc=d"} 1 1000`). -/
def collisionA : PSample :=
  { metric := "m", value := .untyped (doubleBitsOfNat 1),
    labels := [("a", "bc=d")], timestampMillis := 1000 }

/-- An observation of metric `m` with the different label set
`{a: "b", c: "d"}` (parse of the line `m{a="b",c="d"} 2 2000`), whose
identity key nonetheless collides with `collisionA`'s. -/
def collisionB : PSample :=
  { metric := "m", value := .untyped (doubleBitsOfNat 2),
    labels := [("a", "b"), ("c", "d")], timestampMillis := 2000 }

/-- A request whose two series are not ordered by metric name. -/
def unorderedRequest : WriteRequest :=
  { timeseries := [
      { labels := [{ name := "__name__", value := "b" }], samples := [] },
      { labels := [{ name := "__name__", value := "a" }], samples := [] }] }

/-- One series holding two samples with equal timestamps, in one order. -/
def tieRequestA : WriteRequest :=
  { timeseries := [
      { labels := [],
        samples := [{ value := doubleBitsOfNat 1, timestamp := 5 },
                    { value := doubleBitsOfNat 2, timestamp := 5 }] }] }

/-- The same series with its two equal-timestamp samples swapped. -/
def tieRequestB : WriteRequest :=
  { timeseries := [
      { labels := [],
        samples := [{ value := doubleBitsOfNat 2, timestamp := 5 },
                    { value := doubleBitsOfNat 1, timestamp := 5 }] }] }

/-- A one-observation input with one ordinary label. -/
def plainSamples : List PSample :=
  [{ metric := "m", value := .untyped (doubleBitsOfNat 3),
     labels := [("a", "b")], timestampMillis := 9 }]

/-- The series `plainSamples` produces. -/
def plainSeries : TimeSeries :=
  { labels := [{ name := "__name__", value := "m" }, { name := "a", value := "b" }],
    samples := [{ value := doubleBitsOfNat 3, timestamp := 9 }] }

/-- The request `plainSamples` produces. -/
def plainExpected : WriteRequest :=
  { timeseries := [plainSeries] }

/-- The series the CLI builds for `-n m -v <3> -l a=b` at clock value 9. -/
def cliSeries : TimeSeries :=
  { labels := [{ name := "a", value := "b" }, { name := "__name__", value := "m" }],
    samples := [{ value := doubleBitsOfNat 3, timestamp := 9 }] }

/-- The series the CLI builds when the caller supplies the reserved
label key: `-n foo -l __name__=x` at clock value 7. -/
def cliDupSeries : TimeSeries :=
  { labels := [{ name := "__name__", value := "x" }, { name := "__name__", value := "foo" }],
    samples := [{ value := doubleBitsOfNat 3, timestamp := 7 }] }

/-- A one-observation input whose value is a histogram. -/
def histSamples : List PSample :=
  [{ metric := "h", value := .histogram [], labels := [], timestampMillis := 0 }]

/-! ## Properties of the byte-wise string order -/

theorem charsLt_irrefl : ∀ l, charsLt l l = false
  | [] => rfl
  | a :: as => by
    simp [charsLt, charsLt_irrefl as, lt_irrefl]

theorem charsLt_asymm : ∀ {l₁ l₂ : List Char}, charsLt l₁ l₂ = true → charsLt l₂ l₁ = false
  | _, [], h => by simp [charsLt] at h
  | [], _ :: _, _ => rfl
  | a :: as, b :: bs, h => by
    simp only [charsLt, Bool.or_eq_true, decide_eq_true_eq, Bool.and_eq_true, beq_iff_eq] at h
    rcases h with h | ⟨rfl, h⟩
    · simp [charsLt, lt_asymm h, h.ne']
    · simp [charsLt, lt_irrefl, charsLt_asymm h]

theorem charsLt_trans :
    ∀ {l₁ l₂ l₃ : List Char}, charsLt l₁ l₂ = true → charsLt l₂ l₃ = true → charsLt l₁ l₃ = true
  | _, _, [], _, h₂ => by simp [charsLt] at h₂
  | _, [], _ :: _, h₁, _ => by simp [charsLt] at h₁
  | [], _ :: _, _ :: _, _, _ => rfl
  | a :: as, b :: bs, c :: cs, h₁, h₂ => by
    simp only [charsLt, Bool.or_eq_true, decide_eq_true_eq, Bool.and_eq_true, beq_iff_eq] at *
    rcases h₁ with h₁ | ⟨rfl, h₁⟩ <;> rcases h₂ with h₂ | ⟨rfl, h₂⟩
    · exact .inl (lt_trans h₁ h₂)
    · exact .inl h₁
    · exact .inl h₂
    · exact .inr ⟨rfl, charsLt_trans h₁ h₂⟩

theorem charsLt_eq_of_not_lt :
    ∀ {l₁ l₂ : List Char}, charsLt l₁ l₂ = false → charsLt l₂ l₁ = false → l₁ = l₂
  | [], [], _, _ => rfl
  | [], _ :: _, h₁, _ => by cases h₁
  | _ :: _, [], _, h₂ => by cases h₂
  | a :: as, b :: bs, h₁, h₂ => by
    simp only [charsLt, Bool.or_eq_false_iff, decide_eq_false_iff_not, Bool.and_eq_false_iff,
      beq_eq_false_iff_ne, ne_eq] at h₁ h₂
    have hab : a = b := le_antisymm (le_of_not_lt h₂.1) (le_of_not_lt h₁.1)
    subst hab
    have h₁' : charsLt as bs = false := by
      rcases h₁.2 with h | h
      · exact absurd rfl h
      · exact h
    have h₂' : charsLt bs as = false := by
      rcases h₂.2 with h | h
      · exact absurd rfl h
      · exact h
    rw [charsLt_eq_of_not_lt h₁' h₂']

theorem strLe_total (a b : String) : strLe a b = true ∨ strLe b a = true := by
  unfold strLe strLt
  cases h : charsLt b.data a.data
  · exact .inl rfl
  · exact .inr (by simp [charsLt_asymm h])

theorem strLe_trans {a b c : String} (h₁ : strLe a b = true) (h₂ : strLe b c = true) :
    strLe a c = true := by
  unfold strLe strLt at *
  simp only [Bool.not_eq_true'] at *
  cases h : charsLt c.data a.data
  · rfl
  · cases hab : charsLt a.data b.data
    · have : a.data = b.data := charsLt_eq_of_not_lt hab h₁
      rw [this] at h
      rw [h] at h₂
      cases h₂
    · have := charsLt_trans h hab
      rw [this] at h₂
      cases h₂

instance : IsTotal (String × String) pairLe :=
  ⟨fun a b => strLe_total a.1 b.1⟩

instance : IsTrans (String × String) pairLe :=
  ⟨fun _ _ _ => strLe_trans⟩

instance : IsTotal Label labelLe :=
  ⟨fun a b => strLe_total a.name b.name⟩

instance : IsTrans Label labelLe :=
  ⟨fun _ _ _ => strLe_trans⟩

instance : IsTotal Sample sampleLe :=
  ⟨fun a b => Int.le_total a.timestamp b.timestamp⟩

instance : IsTrans Sample sampleLe :=
  ⟨fun _ _ _ => Int.le_trans⟩

instance : IsTotal TimeSeries seriesLe :=
  ⟨fun a b => strLe_total (seriesName a) (seriesName b)⟩

instance : IsTrans TimeSeries seriesLe :=
  ⟨fun _ _ _ => strLe_trans⟩

/-! ## Structure of the aggregator's output -/

theorem sampleLabels_sorted (s : PSample) : (sampleLabels s).Sorted pairLe :=
  List.sorted_insertionSort pairLe _

theorem sampleLabels_perm (s : PSample) :
    List.Perm (sampleLabels s) (s.labels ++ [(LABEL_NAME, s.metric)]) :=
  List.perm_insertionSort pairLe _

/-- Every series an aggregation step leaves in the map either keeps the
labels of a series already in the map, or has the label list built from
the current sample. -/
theorem stepSample_labels {acc : List (String × TimeSeries)} {s : PSample}
    {acc' : List (String × TimeSeries)} (h : stepSample acc s = .ok acc') :
    ∀ e ∈ acc', (∃ e' ∈ acc, e.2.labels = e'.2.labels) ∨
      e.2.labels = (sampleLabels s).map mkLabel := by
  unfold stepSample at h
  cases hv : sampleValue s.value with
  | error err => simp only [hv] at h; exact Except.noConfusion h
  | ok v =>
  simp only [hv] at h
  injection h with h
  subst h
  intro e he
  rw [List.mem_map] at he
  obtain ⟨e₀, he₀, rfl⟩ := he
  have hlab : (if e₀.1 = mkIdent s.metric (sampleLabels s) then
      (e₀.1, { e₀.2 with samples := e₀.2.samples ++
        [{ value := v, timestamp := s.timestampMillis }] })
      else e₀).2.labels = e₀.2.labels := by
    split <;> rfl
  rw [hlab]
  by_cases hany : acc.any (fun e => e.1 = mkIdent s.metric (sampleLabels s))
  · rw [if_pos hany] at he₀
    exact .inl ⟨e₀, he₀, rfl⟩
  · rw [if_neg hany, List.mem_append] at he₀
    rcases he₀ with he₀ | he₀
    · exact .inl ⟨e₀, he₀, rfl⟩
    · rw [List.mem_singleton] at he₀
      subst he₀
      exact .inr rfl

/-- Every series the aggregation loop leaves in the map either keeps the
labels of a series of the starting map, or has the label list built from
one of the processed samples. -/
theorem runSamples_labels :
    ∀ (ps : List PSample) (acc m : List (String × TimeSeries)),
      runSamples acc ps = .ok m →
      ∀ e ∈ m, (∃ e' ∈ acc, e.2.labels = e'.2.labels) ∨
        ∃ s ∈ ps, e.2.labels = (sampleLabels s).map mkLabel
  | [], acc, m, h => by
    injection h with h
    subst h
    exact fun e he => .inl ⟨e, he, rfl⟩
  | s :: rest, acc, m, h => by
    unfold runSamples at h
    cases hs : stepSample acc s <;> rw [hs] at h
    · cases h
    · intro e he
      rcases runSamples_labels rest _ m h e he with ⟨e', he', heq⟩ | ⟨s', hs', heq⟩
      · rcases stepSample_labels hs e' he' with ⟨e'', he'', heq'⟩ | heq'
        · exact .inl ⟨e'', he'', heq ▸ heq'⟩
        · exact .inr ⟨s, List.mem_cons_self s rest, heq ▸ heq'⟩
      · exact .inr ⟨s', List.mem_cons_of_mem s hs', heq⟩

/-- Every series produced by `samples_to_timeseries` carries the label
list built from one of the input samples: the pushed `__name__` label
merged in and the whole list stably sorted by label name. -/
theorem samples_to_timeseries_labels {ps : List PSample} {l : List TimeSeries}
    (h : samples_to_timeseries ps = .ok l) :
    ∀ ts ∈ l, ∃ s ∈ ps, ts.labels = (sampleLabels s).map mkLabel := by
  unfold samples_to_timeseries at h
  cases hr : runSamples [] ps <;> rw [hr] at h
  · cases h
  · injection h with h
    subst h
    intro ts hts
    rw [List.mem_map] at hts
    obtain ⟨e, he, rfl⟩ := hts
    rcases runSamples_labels ps [] _ hr e he with ⟨e', he', _⟩ | ⟨s, hs, heq⟩
    · cases he'
    · exact ⟨s, hs, heq⟩

/-- The labels of every series produced by `samples_to_timeseries` are
already sorted by name when the series is created. -/
theorem samples_to_timeseries_labels_sorted {ps : List PSample} {l : List TimeSeries}
    (h : samples_to_timeseries ps = .ok l) :
    ∀ ts ∈ l, ts.labels.Sorted labelLe := by
  intro ts hts
  obtain ⟨s, _, heq⟩ := samples_to_timeseries_labels h ts hts
  rw [heq]
  exact (sampleLabels_sorted s).map mkLabel (fun _ _ hab => hab)

/-! ## Canonicalization lemmas -/

theorem sort_labels_and_samples_sorted (ts : TimeSeries) :
    ts.sort_labels_and_samples.labels.Sorted labelLe ∧
    ts.sort_labels_and_samples.samples.Sorted sampleLe :=
  ⟨List.sorted_insertionSort labelLe ts.labels,
   List.sorted_insertionSort sampleLe ts.samples⟩

theorem sort_labels_and_samples_idem (ts : TimeSeries) :
    ts.sort_labels_and_samples.sort_labels_and_samples = ts.sort_labels_and_samples := by
  unfold TimeSeries.sort_labels_and_samples
  simp only
  rw [(List.sorted_insertionSort labelLe ts.labels).insertionSort_eq,
      (List.sorted_insertionSort sampleLe ts.samples).insertionSort_eq]

theorem sorted_idem (r : WriteRequest) : r.sorted.sorted = r.sorted := by
  unfold WriteRequest.sorted
  simp only [List.map_map]
  congr 1
  exact List.map_congr_left (fun ts _ => sort_labels_and_samples_idem ts)

/-- `seriesName` only looks at the labels, and sorting the labels of a
series whose labels were already sorted leaves them unchanged. -/
theorem seriesName_sort_of_sorted {ts : TimeSeries} (h : ts.labels.Sorted labelLe) :
    seriesName ts.sort_labels_and_samples = seriesName ts := by
  unfold seriesName TimeSeries.sort_labels_and_samples
  rw [h.insertionSort_eq]

/-! ## Error propagation (unsupported value kinds) -/

/-- A step fails exactly when the sample's value kind is rejected, with
the same message. -/
theorem stepSample_error_iff {acc : List (String × TimeSeries)} {s : PSample} {msg : String} :
    stepSample acc s = .error msg ↔ sampleValue s.value = .error msg := by
  unfold stepSample
  cases sampleValue s.value <;> simp

/-- A step on a sample of a supported value kind succeeds. -/
theorem stepSample_ok_of_supported (acc : List (String × TimeSeries)) {s : PSample}
    (h : ∀ msg, sampleValue s.value ≠ .error msg) :
    ∃ acc', stepSample acc s = .ok acc' := by
  unfold stepSample
  cases hv : sampleValue s.value with
  | error err => exact absurd hv (h err)
  | ok v => exact ⟨_, rfl⟩

/-- If some processed sample has a rejected value kind, the aggregation
loop fails, and the failure message is the rejection message of one of
the input samples. -/
theorem runSamples_error :
    ∀ (ps : List PSample) (acc : List (String × TimeSeries)),
      (∃ s ∈ ps, ∃ msg, sampleValue s.value = .error msg) →
      ∃ msg, runSamples acc ps = .error msg ∧
        ∃ s ∈ ps, sampleValue s.value = .error msg
  | [], _, h => by
    obtain ⟨s, hs, _⟩ := h
    exact absurd hs (List.not_mem_nil s)
  | s :: rest, acc, h => by
    unfold runSamples
    cases hv : sampleValue s.value with
    | error err =>
      rw [stepSample_error_iff.mpr hv]
      exact ⟨err, rfl, s, List.mem_cons_self s rest, hv⟩
    | ok v =>
      have hsup : ∀ msg, sampleValue s.value ≠ .error msg := by
        intro msg hmsg
        rw [hv] at hmsg
        exact Except.noConfusion hmsg
      obtain ⟨acc', hstep⟩ := stepSample_ok_of_supported acc hsup
      rw [hstep]
      have htail : ∃ s' ∈ rest, ∃ msg, sampleValue s'.value = .error msg := by
        obtain ⟨s', hs', msg, hmsg⟩ := h
        rcases List.mem_cons.mp hs' with rfl | hs'
        · rw [hv] at hmsg
          exact absurd hmsg (Except.noConfusion ·)
        · exact ⟨s', hs', msg, hmsg⟩
      obtain ⟨msg, hrun, s', hs', hmsg⟩ := runSamples_error rest acc' htail
      exact ⟨msg, hrun, s', List.mem_cons_of_mem s hs', hmsg⟩

/-! ## Claims -/

/-- C1 (evidence of the code defect): the identity key concatenates
sorted `k=v` pairs with no separator, so the distinct label sets
`{a: "bc=d"}` and `{a: "b", c: "d"}` of one metric produce the same key,
and `samples_to_timeseries` merges both observations into a single
series (keeping the first observation's labels) instead of producing two
series — contradicting the claim that observations share a series only
when their full label sets are identical. -/
theorem claim1_identity_key_collision :
    collisionA.metric = collisionB.metric ∧
    (↑collisionA.labels : Multiset (String × String))
      ≠ (↑collisionB.labels : Multiset (String × String)) ∧
    mkIdent collisionA.metric (sampleLabels collisionA)
      = mkIdent collisionB.metric (sampleLabels collisionB) ∧
    samples_to_timeseries [collisionA, collisionB] =
      .ok [{ labels := [{ name := "__name__", value := "m" }, { name := "a", value := "bc=d" }],
             samples := [{ value := doubleBitsOfNat 1, timestamp := 1000 },
                         { value := doubleBitsOfNat 2, timestamp := 2000 }] }] :=
  ⟨rfl, by decide, by decide, by rfl⟩

/-- C2: in every request `from_text_format` returns, each series' labels
are non-decreasing by label name and its samples non-decreasing by
timestamp, and the series list is non-decreasing by the value of the
`__name__` label (byte-wise string comparison throughout). -/
theorem claim2_from_text_format_ordering (ps : List PSample) (req : WriteRequest)
    (h : from_text_format_samples ps = .ok req) :
    (∀ ts ∈ req.timeseries, ts.labels.Sorted labelLe ∧ ts.samples.Sorted sampleLe) ∧
    req.timeseries.Sorted seriesLe := by
  unfold from_text_format_samples at h
  cases hl : samples_to_timeseries ps <;> rw [hl] at h
  · exact Except.noConfusion h
  case ok l =>
  injection h with h
  subst h
  have hts_eq : (WriteRequest.sorted { timeseries := l.insertionSort seriesLe }).timeseries
      = (l.insertionSort seriesLe).map TimeSeries.sort_labels_and_samples := rfl
  constructor
  · intro ts hts
    rw [hts_eq, List.mem_map] at hts
    obtain ⟨ts₀, _, rfl⟩ := hts
    exact sort_labels_and_samples_sorted ts₀
  · rw [hts_eq]
    show List.Pairwise seriesLe _
    rw [List.pairwise_map]
    have hsorted : (l.insertionSort seriesLe).Sorted seriesLe :=
      List.sorted_insertionSort seriesLe l
    refine hsorted.imp_of_mem ?_
    intro a b ha hb hab
    have ha' : a ∈ l := (List.mem_insertionSort seriesLe).mp ha
    have hb' : b ∈ l := (List.mem_insertionSort seriesLe).mp hb
    have hna := seriesName_sort_of_sorted (samples_to_timeseries_labels_sorted hl a ha')
    have hnb := seriesName_sort_of_sorted (samples_to_timeseries_labels_sorted hl b hb')
    show strLe (seriesName a.sort_labels_and_samples) (seriesName b.sort_labels_and_samples) = true
    rw [hna, hnb]
    exact hab

/-- C2, instantiated on the example scenario. -/
theorem claim2_from_text_format_ordering_witness :
    (∀ ts ∈ c7Expected.timeseries, ts.labels.Sorted labelLe ∧ ts.samples.Sorted sampleLe) ∧
    c7Expected.timeseries.Sorted seriesLe :=
  claim2_from_text_format_ordering c7Samples c7Expected (by rfl)

/-- C3 (counterexample): `WriteRequest::sort` does not reorder the
series list, so a request whose two series carry names `b`, `a` stays
unordered after `sorted` — the claim that `sort` produces a
name-sorted series list is false. -/
theorem claim3_sort_does_not_reorder_series_cex :
    ¬ unorderedRequest.sorted.timeseries.Sorted seriesLe := by
  decide

/-- C3 (amended): `sort` / `sorted` canonicalizes within each series —
labels ascending by name, samples ascending by timestamp — and maps the
series list position-wise, leaving the order of the series themselves
unchanged; the by-name ordering of the series list is established
separately, inside `from_text_format`. -/
theorem claim3_sort_canonicalizes_within_series (r : WriteRequest) :
    r.sorted.timeseries = r.timeseries.map TimeSeries.sort_labels_and_samples ∧
    r.sorted.timeseries.Forall
      (fun ts => ts.labels.Sorted labelLe ∧ ts.samples.Sorted sampleLe) := by
  refine ⟨rfl, ?_⟩
  rw [List.forall_iff_forall_mem]
  intro ts hts
  rw [show r.sorted.timeseries = r.timeseries.map TimeSeries.sort_labels_and_samples from rfl,
    List.mem_map] at hts
  obtain ⟨ts₀, _, rfl⟩ := hts
  exact sort_labels_and_samples_sorted ts₀

/-- C4: canonicalization is idempotent — `sorted` applied twice yields
the same structure as applied once, hence also byte-identical protobuf
output. -/
theorem claim4_sorted_idempotent (r : WriteRequest) :
    r.sorted.sorted = r.sorted ∧
    r.sorted.sorted.encode_proto3 = r.sorted.encode_proto3 :=
  ⟨sorted_idem r, by rw [sorted_idem r]⟩

/-- C5: an input containing a histogram- or summary-typed sample makes
the pipeline fail, with the error message naming the rejected kind (the
kind of the first rejected sample); no request is produced. -/
theorem claim5_rejects_histogram_summary (ps : List PSample)
    (h : ∃ s ∈ ps, s.value.isHistogram = true ∨ s.value.isSummary = true) :
    ∃ msg, from_text_format_samples ps = .error msg ∧
      ((msg = "histogram not supported yet" ∧ ∃ s ∈ ps, s.value.isHistogram = true) ∨
       (msg = "summary not supported yet" ∧ ∃ s ∈ ps, s.value.isSummary = true)) := by
  have herr : ∃ s ∈ ps, ∃ msg, sampleValue s.value = .error msg := by
    obtain ⟨s, hs, hcase⟩ := h
    refine ⟨s, hs, ?_⟩
    cases hval : s.value with
    | histogram c => exact ⟨"histogram not supported yet", rfl⟩
    | summary c => exact ⟨"summary not supported yet", rfl⟩
    | counter v => rcases hcase with hh | hh <;> rw [hval] at hh <;> exact Bool.noConfusion hh
    | gauge v => rcases hcase with hh | hh <;> rw [hval] at hh <;> exact Bool.noConfusion hh
    | untyped v => rcases hcase with hh | hh <;> rw [hval] at hh <;> exact Bool.noConfusion hh
  obtain ⟨msg, hrun, s, hs, hmsg⟩ := runSamples_error ps [] herr
  refine ⟨msg, ?_, ?_⟩
  · unfold from_text_format_samples samples_to_timeseries
    rw [hrun]
  · cases hval : s.value with
    | histogram c =>
      rw [hval] at hmsg
      injection hmsg with hmsg
      exact .inl ⟨hmsg.symm, s, hs, by rw [hval]; rfl⟩
    | summary c =>
      rw [hval] at hmsg
      injection hmsg with hmsg
      exact .inr ⟨hmsg.symm, s, hs, by rw [hval]; rfl⟩
    | counter v => rw [hval] at hmsg; exact Except.noConfusion hmsg
    | gauge v => rw [hval] at hmsg; exact Except.noConfusion hmsg
    | untyped v => rw [hval] at hmsg; exact Except.noConfusion hmsg

/-- C5, instantiated on a one-histogram input. -/
theorem claim5_rejects_histogram_summary_witness :
    (∃ s ∈ histSamples, s.value.isHistogram = true ∨ s.value.isSummary = true) ∧
    ∃ msg, from_text_format_samples histSamples = .error msg ∧
      ((msg = "histogram not supported yet" ∧ ∃ s ∈ histSamples, s.value.isHistogram = true) ∨
       (msg = "summary not supported yet" ∧ ∃ s ∈ histSamples, s.value.isSummary = true)) :=
  ⟨by decide, claim5_rejects_histogram_summary histSamples (by decide)⟩

/-- C6: for every compressed payload (compression is the external snappy
codec, a parameter), endpoint and user-agent string, the assembled
request has method POST, the endpoint as URI, the compressed protobuf
payload as body, and the four fixed headers. -/
theorem claim6_build_http_request_fields (compress : List Nat → List Nat)
    (r : WriteRequest) (endpoint user_agent : String) :
    (WriteRequest.build_http_request compress r endpoint user_agent).method = "POST" ∧
    (WriteRequest.build_http_request compress r endpoint user_agent).uri = endpoint ∧
    (WriteRequest.build_http_request compress r endpoint user_agent).body
      = compress r.encode_proto3 ∧
    (WriteRequest.build_http_request compress r endpoint user_agent).headers
      = [("content-type", "application/x-protobuf"),
         ("X-Prometheus-Remote-Write-Version", "0.1.0"),
         ("content-encoding", "snappy"),
         ("user-agent", user_agent)] :=
  ⟨rfl, rfl, rfl, rfl⟩

/-- C7: the spec's four-line example parses to a request whose series
are ordered `alpha`, `http_requests_total`, `mygauge`; the
`http_requests_total` series has labels ordered `__name__`, `code`,
`method` and exactly the samples `(50, 1000)` then
`(1027, 1395066363000)`. -/
theorem claim7_example_scenario :
    from_text_format_samples c7Samples = .ok c7Expected ∧
    c7Expected.timeseries.map seriesName = ["alpha", "http_requests_total", "mygauge"] ∧
    (c7Expected.timeseries.map fun ts => ts.labels.map Label.name)
      = [["__name__"], ["__name__", "code", "method"], ["__name__"]] ∧
    (c7Expected.timeseries.map fun ts => ts.samples.map fun smp => (smp.value, smp.timestamp))
      = [[(doubleBitsOfNat 10, 1000)],
         [(doubleBitsOfNat 50, 1000), (doubleBitsOfNat 1027, 1395066363000)],
         [(doubleBitsOfNat 100, 100)]] :=
  ⟨by rfl, by decide, by decide, by decide⟩

/-- C8 (counterexample): a caller-supplied label with the reserved key
`__name__` is not overwritten by the CLI's `build_write_request`; the
metric-name label is pushed alongside it, so the series carries two
labels named `__name__` and label names are not unique. -/
theorem claim8_reserved_label_duplicated_cex :
    (build_write_request_metric "foo" [("__name__", "x")] (doubleBitsOfNat 1) 7).timeseries.map
        TimeSeries.labels
      = [[{ name := "__name__", value := "x" }, { name := "__name__", value := "foo" }]] ∧
    ¬ (∀ ts ∈ (build_write_request_metric "foo" [("__name__", "x")]
          (doubleBitsOfNat 1) 7).timeseries,
        (ts.labels.map Label.name).Nodup) :=
  ⟨by decide, by decide⟩

/-- C8 (amended): label names are unique within every series produced by
`from_text_format` or by the CLI's `build_write_request`, provided the
input's label keys are themselves distinct and none of them is the
reserved key `__name__`; when the CLI caller does supply a `__name__`
label, it is kept and the metric-name label is appended alongside it
(duplicate label names), not overwritten. -/
theorem claim8_label_names_unique_unless_reserved :
    (∀ (ps : List PSample) (req : WriteRequest),
      (∀ s ∈ ps, (s.labels.map Prod.fst).Nodup ∧ LABEL_NAME ∉ s.labels.map Prod.fst) →
      from_text_format_samples ps = .ok req →
      ∀ ts ∈ req.timeseries, (ts.labels.map Label.name).Nodup) ∧
    (∀ (name : String) (labels : List (String × String)) (value : Nat) (now : Int),
      (labels.map Prod.fst).Nodup → LABEL_NAME ∉ labels.map Prod.fst →
      ∀ ts ∈ (build_write_request_metric name labels value now).timeseries,
        (ts.labels.map Label.name).Nodup) ∧
    (∀ (name v : String) (labels : List (String × String)) (value : Nat) (now : Int),
      (LABEL_NAME, v) ∈ labels →
      ∀ ts ∈ (build_write_request_metric name labels value now).timeseries,
        ({ name := LABEL_NAME, value := v } : Label) ∈ ts.labels ∧
        ({ name := LABEL_NAME, value := name } : Label) ∈ ts.labels) := by
  refine ⟨?_, ?_, ?_⟩
  · intro ps req hkeys hok ts hts
    unfold from_text_format_samples at hok
    cases hl : samples_to_timeseries ps <;> rw [hl] at hok
    · exact Except.noConfusion hok
    case ok l =>
    injection hok with hok
    subst hok
    rw [show (WriteRequest.sorted { timeseries := l.insertionSort seriesLe }).timeseries
        = (l.insertionSort seriesLe).map TimeSeries.sort_labels_and_samples from rfl,
      List.mem_map] at hts
    obtain ⟨ts₀, hts₀, rfl⟩ := hts
    have hmem : ts₀ ∈ l := (List.mem_insertionSort seriesLe).mp hts₀
    obtain ⟨s, hs, heq⟩ := samples_to_timeseries_labels hl ts₀ hmem
    have hperm : List.Perm (ts₀.sort_labels_and_samples.labels.map Label.name)
        (ts₀.labels.map Label.name) :=
      (List.perm_insertionSort labelLe ts₀.labels).map Label.name
    rw [hperm.nodup_iff, heq, List.map_map]
    show ((sampleLabels s).map Prod.fst).Nodup
    rw [((sampleLabels_perm s).map Prod.fst).nodup_iff, List.map_append, List.nodup_append]
    obtain ⟨hnd, hnin⟩ := hkeys s hs
    exact ⟨hnd, List.nodup_singleton _,
      fun a ha hb => hnin (by rwa [List.mem_singleton.mp hb] at ha)⟩
  · intro name labels value now hnd hnin ts hts
    simp only [build_write_request_metric, List.mem_singleton] at hts
    subst hts
    show ((labels.map mkLabel ++ [({ name := LABEL_NAME, value := name } : Label)]).map
      Label.name).Nodup
    rw [List.map_append, List.map_map]
    show (labels.map Prod.fst ++ [LABEL_NAME]).Nodup
    rw [List.nodup_append]
    exact ⟨hnd, List.nodup_singleton _,
      fun a ha hb => hnin (by rwa [List.mem_singleton.mp hb] at ha)⟩
  · intro name v labels value now hmem ts hts
    simp only [build_write_request_metric, List.mem_singleton] at hts
    subst hts
    constructor
    · exact List.mem_append_left _ (List.mem_map.mpr ⟨(LABEL_NAME, v), hmem, rfl⟩)
    · exact List.mem_append_right _ (List.mem_singleton_self _)

/-- C8 (amended), instantiated: a library series from a one-label input,
a CLI series from `-l a=b`, and the two coexisting `__name__` labels of
a CLI series built from `-l __name__=x`. -/
theorem claim8_label_names_unique_unless_reserved_witness :
    (plainSeries.labels.map Label.name).Nodup ∧
    (cliSeries.labels.map Label.name).Nodup ∧
    (({ name := "__name__", value := "x" } : Label) ∈ cliDupSeries.labels ∧
     ({ name := "__name__", value := "foo" } : Label) ∈ cliDupSeries.labels) := by
  obtain ⟨h1, h2, h3⟩ := claim8_label_names_unique_unless_reserved
  exact ⟨h1 plainSamples plainExpected (by decide) (by rfl) plainSeries (by decide),
         h2 "m" [("a", "b")] (doubleBitsOfNat 3) 9 (by decide) (by decide) cliSeries (by decide),
         h3 "foo" "x" [("__name__", "x")] (doubleBitsOfNat 3) 7 (by decide) cliDupSeries
           (by decide)⟩

/-- C9: encoding is deterministic — as a pure function of the request
(and of the compression codec), two applications to the same request
yield byte-identical output. -/
theorem claim9_encode_deterministic (compress : List Nat → List Nat)
    (r₁ r₂ : WriteRequest) (h : r₁ = r₂) :
    r₁.encode_proto3 = r₂.encode_proto3 ∧
    WriteRequest.encode_compressed compress r₁
      = WriteRequest.encode_compressed compress r₂ := by
  subst h
  exact ⟨rfl, rfl⟩

/-- C9, instantiated on the example scenario's request. -/
theorem claim9_encode_deterministic_witness :
    c7Expected.encode_proto3 = c7Expected.encode_proto3 ∧
    WriteRequest.encode_compressed id c7Expected
      = WriteRequest.encode_compressed id c7Expected :=
  claim9_encode_deterministic id c7Expected c7Expected rfl

/-- C10 (counterexample): sample order within a series does affect the
encoded bytes when timestamps tie — the stable sort keeps the input
order of equal-timestamp samples, so the same multiset of samples in two
orders encodes to two different byte strings. -/
theorem claim10_sample_order_affects_encoding_cex :
    (tieRequestA.timeseries.map fun ts => (↑ts.samples : Multiset Sample))
      = (tieRequestB.timeseries.map fun ts => (↑ts.samples : Multiset Sample)) ∧
    tieRequestA.encode_proto3 ≠ tieRequestB.encode_proto3 :=
  ⟨by decide, by decide⟩

/-- C10 (amended): `encode_proto3` canonicalizes internally, so encoding
a request and encoding its canonicalized form produce the same bytes —
callers need not call `sort` before encoding.  (Input label/sample order
within a series can still leak into the bytes through stable-sort ties,
as the counterexample shows.) -/
theorem claim10_encode_canonicalizes_internally (r : WriteRequest) :
    r.sorted.encode_proto3 = r.encode_proto3 := by
  unfold WriteRequest.encode_proto3
  rw [sorted_idem r]

end PromWrite
